import Mathlib

/-!
# Verification of the bolt.diy time-series core

Shallow embedding of the two core components of the repository:

* the **Chart Type Advisor** (`detectChartType` and its helpers, from
  `app/lib/chartDetection` — `src/unnamed/part_005`), and
* the **Series Aggregator** (`aggregateTimeSeriesData` and
  `formatDateByAggregation`, from the `useTimeSeriesData` hook —
  `src/unnamed/part_004`).

Modelling conventions:

* JavaScript `number` values are embedded as exact rationals `ℚ`; the
  float `0.1`/`0.3` threshold constants are the exact rationals `1/10`,
  `3/10`.
* A JavaScript `Date` is embedded as its epoch-millisecond value
  (`Date.prototype.getTime`), an `Int`.  The local-time calendar getters
  (`getFullYear`, `getMonth`, `getDate`, `getDay`, `getHours`) are
  modelled at a fixed zero UTC offset (no DST), using the standard civil
  calendar algorithm.
* `Math.sqrt` appears in the source only on the left of comparisons of
  the shape `sqrt v < c` or `|x| > 2 * sqrt v` with `v ≥ 0`; these are
  embedded by the equivalent squared comparisons (`0 < c ∧ v < c²`,
  `x² > 4*v`), see `sqrtLtBool_correct` and `absGtTwoSqrtBool_correct`.
* A JavaScript plain object used as a map with string keys that are
  never array indices (the aggregation keys always contain a `-`)
  enumerates its keys in insertion order (`Object.keys`); it is embedded
  as an association list in which new keys are appended at the end.
* A JavaScript `Set<string>` is likewise embedded as a duplicate-free
  insertion-ordered list.
-/

/-! ## Date model -/

def msPerDay : Int := 86400000

/-- Day number (days since 1970-01-01) of an epoch-millisecond value;
floor division, matching the calendar day a `Date` falls on at fixed
zero offset. -/
def daysFromMs (t : Int) : Int := t.fdiv msPerDay

/-- Civil (proleptic Gregorian) date `(year, month 1..12, day 1..31)` of
a day number, by Howard Hinnant's `civil_from_days` algorithm.  Models
the ECMAScript `Date` year/month/day getters at a fixed zero offset. -/
def civilFromDays (z₀ : Int) : Int × Int × Int :=
  let z := z₀ + 719468
  let era := z.fdiv 146097
  let doe := z - era * 146097
  let yoe := (doe - doe / 1460 + doe / 36524 - doe / 146096) / 365
  let y := yoe + era * 400
  let doy := doe - (365 * yoe + yoe / 4 - yoe / 100)
  let mp := (5 * doy + 2) / 153
  let d := doy - (153 * mp + 2) / 5 + 1
  let m := if mp < 10 then mp + 3 else mp - 9
  (if m ≤ 2 then y + 1 else y, m, d)

/-- `Date.prototype.getFullYear` (fixed zero offset). -/
def getFullYear (t : Int) : Int := (civilFromDays (daysFromMs t)).1

/-- `Date.prototype.getMonth` — 0-based month, as in JavaScript. -/
def getMonth (t : Int) : Int := (civilFromDays (daysFromMs t)).2.1 - 1

/-- `Date.prototype.getDate` — day of month, 1-based. -/
def getDate (t : Int) : Int := (civilFromDays (daysFromMs t)).2.2

/-- `Date.prototype.getDay` — day of week, 0 = Sunday.
1970-01-01 (day 0) was a Thursday (= 4). -/
def getDay (t : Int) : Int := (daysFromMs t + 4).emod 7

/-- `Date.prototype.getHours` (fixed zero offset). -/
def getHours (t : Int) : Int := (t.fmod msPerDay).fdiv 3600000

/-- `d.setDate(n)`: sets the day of month to `n`, normalizing overflow
and underflow into adjacent months; equivalently, shifts the date by
`n - d.getDate()` whole days, preserving the time of day (fixed offset,
no DST). -/
def jsSetDate (t : Int) (n : Int) : Int := t + (n - getDate t) * msPerDay

/-! ## Data model (`useTimeSeriesData`) -/

/-- `TimeSeriesDataPoint` of `useTimeSeriesData`: `timestamp` is the
`Date`'s epoch-millisecond value; the optional fields model `category?`
and `label?`. -/
structure TimeSeriesDataPoint where
  timestamp : Int
  value : ℚ
  category : Option String := none
  label : Option String := none
deriving DecidableEq, Repr

/-! ## Chart Type Advisor (`chartDetection`) -/

inductive ChartType where
  | line | bar | pie | scatter | area | radar | bubble | gauge
deriving DecidableEq, Repr

structure ChartSuggestion where
  type : ChartType
  confidence : Nat
  reason : String
deriving DecidableEq, Repr

/-- `Math.sqrt v < c` expressed without `sqrt` (for `v ≥ 0`):
equivalent to `0 < c ∧ v < c ^ 2`; see `sqrtLtBool_correct`. -/
def sqrtLtBool (v c : ℚ) : Bool := decide (0 < c ∧ v < c ^ 2)

/-- `|x| > 2 * Math.sqrt v` expressed without `sqrt` (for `v ≥ 0`):
equivalent to `x ^ 2 > 4 * v`; see `absGtTwoSqrtBool_correct`. -/
def absGtTwoSqrtBool (x v : ℚ) : Bool := decide (x ^ 2 > 4 * v)

/-- Mean of the `value`s of the first `⌊n/3⌋` points
(`data.slice(0, Math.floor(n / 3))` in `detectTrend`). -/
def firstThirdAvg (data : List TimeSeriesDataPoint) : ℚ :=
  let firstThird := data.take (data.length / 3)
  (firstThird.map TimeSeriesDataPoint.value).sum / (firstThird.length : ℚ)

/-- Mean of the `value`s of the points from index `⌊2n/3⌋` on
(`data.slice(Math.floor((2 * n) / 3))` in `detectTrend`). -/
def lastThirdAvg (data : List TimeSeriesDataPoint) : ℚ :=
  let lastThird := data.drop (2 * data.length / 3)
  (lastThird.map TimeSeriesDataPoint.value).sum / (lastThird.length : ℚ)

/-- `detectTrend`: fewer than 6 points is no trend; otherwise compare
the means of the first and last thirds
(`Math.abs(lastAvg - firstAvg) > firstAvg * 0.1`). -/
def detectTrend (data : List TimeSeriesDataPoint) : Bool :=
  if data.length < 6 then false
  else decide (|lastThirdAvg data - firstThirdAvg data| > firstThirdAvg data * (1/10))

/-- Consecutive timestamp differences
(`data[i].timestamp.getTime() - data[i-1].timestamp.getTime()`). -/
def intervalsOf (data : List TimeSeriesDataPoint) : List Int :=
  (data.zip data.tail).map (fun pq => pq.2.timestamp - pq.1.timestamp)

/-- `isTimeEventlyDistributed`: fewer than 3 points is vacuously even;
otherwise population mean/variance of the intervals and
`stdDev < avgInterval * 0.3` (embedded squared). -/
def isTimeEventlyDistributed (data : List TimeSeriesDataPoint) : Bool :=
  if data.length < 3 then true
  else
    let intervals := intervalsOf data
    let avgInterval : ℚ := (intervals.map (fun i => (i : ℚ))).sum / (intervals.length : ℚ)
    let variance : ℚ :=
      (intervals.map (fun i => ((i : ℚ) - avgInterval) ^ 2)).sum / (intervals.length : ℚ)
    sqrtLtBool variance (avgInterval * (3/10))

/-- Keep-first-occurrence step: append `k` unless already present. -/
def foStep {α : Type} [DecidableEq α] (acc : List α) (k : α) : List α :=
  if k ∈ acc then acc else acc ++ [k]

/-- Insertion-ordered duplicate-free collection of the elements of `l`
(first occurrences, in order); models both a populated JS `Set` and the
key set of a JS object with non-index string keys. -/
def firstOccurrences {α : Type} [DecidableEq α] (l : List α) : List α :=
  l.foldl foStep []

/-- Body of the `forEach` of `countUniqueCategories`:
`if (point.category) categories.add(point.category)` — the truthiness
test skips both absent and empty-string categories. -/
def catStep (s : List String) (p : TimeSeriesDataPoint) : List String :=
  match p.category with
  | some c => if c ≠ "" then (if c ∈ s then s else s ++ [c]) else s
  | none => s

/-- `countUniqueCategories`: the size of the `Set` of truthy `category`
values, defaulting to 1 when the set is empty (`categories.size || 1`). -/
def countUniqueCategories (data : List TimeSeriesDataPoint) : Nat :=
  let categories := data.foldl catStep ([] : List String)
  if categories.length = 0 then 1 else categories.length

structure ValueRange where
  min : ℚ
  max : ℚ
  range : ℚ
deriving DecidableEq, Repr

/-- `calculateValueRange`: min/max/range of the values; the
`Infinity`/`-Infinity` fold seeds reduce, on non-empty input, to a fold
from the head. -/
def calculateValueRange (data : List TimeSeriesDataPoint) : ValueRange :=
  match data with
  | [] => ⟨0, 0, 0⟩
  | p :: rest =>
    let mn := rest.foldl (fun acc q => min acc q.value) p.value
    let mx := rest.foldl (fun acc q => max acc q.value) p.value
    ⟨mn, mx, mx - mn⟩

/-- `detectSeasonalPattern`: requires ≥ 20 points; groups values by hour
of day and counts hours whose ≥ 3 values have `stdDev < avg * 0.3`; true
when ≥ 3 such hours.  Only the count of qualifying hours matters, so the
numeric ordering of `Object.keys` over the hour map is irrelevant. -/
def detectSeasonalPattern (data : List TimeSeriesDataPoint) : Bool :=
  if data.length < 20 then false
  else
    let hours := firstOccurrences (data.map (fun p => getHours p.timestamp))
    let hoursWithPatterns := hours.filter (fun h =>
      let values := (data.filter (fun p => getHours p.timestamp == h)).map
        TimeSeriesDataPoint.value
      if values.length < 3 then false
      else
        let avg : ℚ := values.sum / (values.length : ℚ)
        let variance : ℚ := (values.map (fun v => (v - avg) ^ 2)).sum / (values.length : ℚ)
        sqrtLtBool variance (avg * (3/10)))
    decide (3 ≤ hoursWithPatterns.length)

/-- `detectOutliers`: fewer than 4 points gives 0; otherwise counts
values more than two population standard deviations from the mean
(`Math.abs(val - avg) > 2 * stdDev`, embedded squared). -/
def detectOutliers (data : List TimeSeriesDataPoint) : Nat :=
  if data.length < 4 then 0
  else
    let values := data.map TimeSeriesDataPoint.value
    let avg : ℚ := values.sum / (values.length : ℚ)
    let variance : ℚ := (values.map (fun v => (v - avg) ^ 2)).sum / (values.length : ℚ)
    (values.filter (fun v => absGtTwoSqrtBool (v - avg) variance)).length

/-- The suggestion list of `detectChartType` for non-empty input, in
push (insertion) order, before the final sort. -/
def buildSuggestions (data : List TimeSeriesDataPoint) : List ChartSuggestion :=
  let hasTrend := detectTrend data
  let _hasSeasonal := detectSeasonalPattern data
  let isEventlyDistributed := isTimeEventlyDistributed data
  let uniqueCategories := countUniqueCategories data
  let valueRange := calculateValueRange data
  let outlierCount := detectOutliers data
  [⟨.line, if hasTrend then 90 else if isEventlyDistributed then 85 else 70,
    if hasTrend then "Data shows a clear trend over time, ideal for line charts"
    else "Time series data works well with line charts"⟩]
  ++ (if uniqueCategories > 1 ∧ uniqueCategories < 15 then
      [⟨.bar, if uniqueCategories > 3 then 85 else 70,
        s!"{uniqueCategories} distinct categories, good for bar comparison"⟩] else [])
  ++ (if uniqueCategories > 1 ∧ uniqueCategories ≤ 7 then
      [⟨.pie, if uniqueCategories ≤ 5 then 75 else 60,
        s!"{uniqueCategories} categories, suitable for showing proportions"⟩] else [])
  ++ (if hasTrend ∧ 0 ≤ valueRange.min then
      [⟨.area, 75, "Positive values with trend, good for showing cumulative data"⟩] else [])
  ++ (if ¬ isEventlyDistributed ∨ outlierCount > 2 then
      [⟨.scatter, if outlierCount > 2 then 80 else 65,
        if outlierCount > 2 then "Data contains outliers, scatter plot shows distribution well"
        else "Irregularly distributed data points"⟩] else [])

/-- Stable insertion (descending by confidence): an element is placed
before the first element whose confidence is `≤` its own, keeping
already-present equal-confidence elements (which came later in the
original order) after it. -/
def insertByConfidence (x : ChartSuggestion) : List ChartSuggestion → List ChartSuggestion
  | [] => [x]
  | y :: ys => if x.confidence < y.confidence then y :: insertByConfidence x ys else x :: y :: ys

/-- `suggestions.sort((a, b) => b.confidence - a.confidence)`:
a stable sort, descending by confidence (ECMAScript `Array.prototype.sort`
is required to be stable). -/
def sortByConfidenceDesc (l : List ChartSuggestion) : List ChartSuggestion :=
  l.foldr insertByConfidence []

/-- `detectChartType` (`suggestChartTypes` in the spec): empty input gets
the fixed `line`/80 default; otherwise the pushed suggestions, sorted by
confidence descending. -/
def detectChartType (data : List TimeSeriesDataPoint) : List ChartSuggestion :=
  if data.isEmpty then
    [⟨.line, 80, "Default chart type for time series data"⟩]
  else
    sortByConfidenceDesc (buildSuggestions data)

/-! ## Series Aggregator (`useTimeSeriesData` helpers) -/

/-- The aggregation granularities accepted by `aggregateTimeSeriesData`
(`'none'` is excluded at the type level in the source signature too; the
caller skips aggregation for it). -/
inductive Aggregation where
  | daily | weekly | monthly
deriving DecidableEq, Repr

/-- English month names, for the `monthly` branch of
`formatDateByAggregation` (`toLocaleDateString` with a long month). -/
def monthName (m : Int) : String :=
  if m = 1 then "January" else if m = 2 then "February" else if m = 3 then "March"
  else if m = 4 then "April" else if m = 5 then "May" else if m = 6 then "June"
  else if m = 7 then "July" else if m = 8 then "August" else if m = 9 then "September"
  else if m = 10 then "October" else if m = 11 then "November" else "December"

/-- `date.toLocaleDateString()`, fixed to the en-US `M/D/YYYY` shape
(the locale rendering itself is outside the formal model; no claim
depends on the exact label text). -/
def toLocaleDateString (t : Int) : String :=
  s!"{getMonth t + 1}/{getDate t}/{getFullYear t}"

/-- `formatDateByAggregation` restricted to the three aggregating
granularities (the `default` branch is only reached with `'none'`). -/
def formatDateByAggregation (t : Int) (aggregation : Aggregation) : String :=
  match aggregation with
  | .daily => toLocaleDateString t
  | .weekly =>
    let startOfWeek := jsSetDate t (getDate t - getDay t)
    s!"Week of {toLocaleDateString startOfWeek}"
  | .monthly => s!"{monthName (getMonth t + 1)} {getFullYear t}"

/-- The bucket key string built in the `switch` of
`aggregateTimeSeriesData`:
`daily` is `` `${y}-${m+1}-${d}` ``, `weekly` the same components of
`startOfWeek = new Date(date); startOfWeek.setDate(date.getDate() - date.getDay())`,
and `monthly` is `` `${y}-${m+1}` ``. -/
def bucketKey (aggregation : Aggregation) (t : Int) : String :=
  match aggregation with
  | .daily => s!"{getFullYear t}-{getMonth t + 1}-{getDate t}"
  | .weekly =>
    let startOfWeek := jsSetDate t (getDate t - getDay t)
    s!"{getFullYear startOfWeek}-{getMonth startOfWeek + 1}-{getDate startOfWeek}"
  | .monthly => s!"{getFullYear t}-{getMonth t + 1}"

/-- A `groupedData` entry: running `sum` and `count`, plus the first
timestamp seen for the bucket (`timestamp: new Date(date)`); the source
object shape is anonymous, `Group` itself is taken by Mathlib. -/
structure AggGroup where
  sum : ℚ
  count : Nat
  timestamp : Int
deriving DecidableEq, Repr

/-- One loop iteration of `aggregateTimeSeriesData`: create the bucket
on first sight (appending the key, since `Object.keys` of non-index
string keys enumerates in insertion order), then `sum += value` and
`count += 1`. -/
def insertPoint (m : List (String × AggGroup)) (key : String) (p : TimeSeriesDataPoint) :
    List (String × AggGroup) :=
  if m.any (fun e => e.1 == key) then
    m.map (fun e =>
      if e.1 == key then (e.1, { e.2 with sum := e.2.sum + p.value, count := e.2.count + 1 })
      else e)
  else
    m ++ [(key, { sum := p.value, count := 1, timestamp := p.timestamp })]

/-- The fully populated `groupedData` map, as an insertion-ordered
association list. -/
def groupPoints (data : List TimeSeriesDataPoint) (aggregation : Aggregation) :
    List (String × AggGroup) :=
  data.foldl (fun m p => insertPoint m (bucketKey aggregation p.timestamp) p) []

/-- `aggregateTimeSeriesData`: group, then map every bucket (in
`Object.keys` order) to an output point with the bucket's first
timestamp, the average value, the formatted label, and the constant
`'aggregated'` category marker. -/
def aggregateTimeSeriesData (data : List TimeSeriesDataPoint) (aggregation : Aggregation) :
    List TimeSeriesDataPoint :=
  (groupPoints data aggregation).map (fun e =>
    { timestamp := e.2.timestamp
      value := e.2.sum / (e.2.count : ℚ)
      category := some "aggregated"
      label := some (formatDateByAggregation e.2.timestamp aggregation) })

/-! ## Derived forms used by the verification -/

/-- Lookup of a bucket by key: the first entry with that key (`find?`),
matching property access on the JS object. -/
def lookupGroup (m : List (String × AggGroup)) (k : String) : Option AggGroup :=
  (m.find? (fun e => e.1 == k)).map Prod.snd

/-- Extends a (possibly absent) running bucket by a list of further
contributing points, exactly as the aggregation loop does: create on
first sight with the point's timestamp, then accumulate sum/count. -/
def extendGroup : Option AggGroup → List TimeSeriesDataPoint → Option AggGroup
  | og, [] => og
  | og, p :: l =>
    match og with
    | none => extendGroup (some { sum := p.value, count := 1, timestamp := p.timestamp }) l
    | some g =>
      extendGroup (some { sum := g.sum + p.value, count := g.count + 1,
                          timestamp := g.timestamp }) l

/-- The truthy category of an observation: `point.category` when
present and non-empty (the values `countUniqueCategories` collects). -/
def truthyCategory (p : TimeSeriesDataPoint) : Option String :=
  match p.category with
  | some c => if c = "" then none else some c
  | none => none

/-- Modelled from the spec (§4.2, `weekly`): "bucket key = (year, month,
day) of the start-of-week date, where start-of-week = observation's date
minus `dayOfWeek` days (Sunday = 0 convention)", using "the normalized
resulting date's own year/month/day".  Stated directly on the day
number: subtract `dayOfWeek` whole days, then read the civil date. -/
def weeklyKeySpec (t : Int) : String :=
  let c := civilFromDays (daysFromMs t - getDay t)
  s!"{c.1}-{c.2.1}-{c.2.2}"

/-! ## Heap-level model of `aggregateTimeSeriesData` (frame behavior)

The pure embedding above cannot even express in-place mutation, so the
frame claim is settled against this second model: a heap of `Date`
objects and observations holding references into it.  `new Date(...)`
allocates, `setDate` writes; everything else reads. -/

/-- A heap of JavaScript `Date` objects, one epoch-ms value each. -/
abbrev DateStore := List Int

/-- Dereference a `Date` object. -/
def readDate (st : DateStore) (r : Nat) : Int := st.getD r 0

/-- `new Date(ms)`: allocate a fresh `Date` object. -/
def allocDate (st : DateStore) (ms : Int) : DateStore × Nat := (st ++ [ms], st.length)

/-- An observation whose `timestamp` field references a heap `Date`. -/
structure RefPoint where
  tsRef : Nat
  value : ℚ
  category : Option String := none
  label : Option String := none
deriving DecidableEq, Repr

structure RefGroup where
  sum : ℚ
  count : Nat
  tsRef : Nat
deriving DecidableEq, Repr

/-- The key computation of one loop iteration, at heap level.  The
`weekly` branch is `const startOfWeek = new Date(date)` followed by
`startOfWeek.setDate(date.getDate() - dayOfWeek)` — an allocation plus
a write to the *fresh* object (the only write in the function) — and
the key is then read back from that object's getters. -/
def bucketKeyRef (st : DateStore) (aggregation : Aggregation) (r : Nat) :
    DateStore × String :=
  match aggregation with
  | .daily => (st, bucketKey .daily (readDate st r))
  | .weekly =>
    let t := readDate st r
    let stsw := allocDate st t
    let st2 := stsw.1.set stsw.2 (jsSetDate t (getDate t - getDay t))
    let sw := readDate st2 stsw.2
    (st2, s!"{getFullYear sw}-{getMonth sw + 1}-{getDate sw}")
  | .monthly => (st, bucketKey .monthly (readDate st r))

/-- One loop iteration of `aggregateTimeSeriesData` at heap level;
bucket creation allocates `new Date(date)` for the group's
representative timestamp. -/
def stepRef (aggregation : Aggregation) (acc : DateStore × List (String × RefGroup))
    (p : RefPoint) : DateStore × List (String × RefGroup) :=
  let st1 := (bucketKeyRef acc.1 aggregation p.tsRef).1
  let key := (bucketKeyRef acc.1 aggregation p.tsRef).2
  if acc.2.any (fun e => e.1 == key) then
    (st1, acc.2.map (fun e =>
      if e.1 == key then (e.1, { e.2 with sum := e.2.sum + p.value, count := e.2.count + 1 })
      else e))
  else
    let str := allocDate st1 (readDate st1 p.tsRef)
    (str.1, acc.2 ++ [(key, { sum := p.value, count := 1, tsRef := str.2 })])

/-- `aggregateTimeSeriesData` at heap level: returns the final heap and
the output observations (their `timestamp`s are references to the
per-bucket `Date`s allocated by the loop). -/
def aggregateTimeSeriesDataRef (st : DateStore) (data : List RefPoint)
    (aggregation : Aggregation) : DateStore × List RefPoint :=
  let stm := data.foldl (stepRef aggregation) (st, [])
  (stm.1, stm.2.map (fun e =>
    { tsRef := e.2.tsRef
      value := e.2.sum / (e.2.count : ℚ)
      category := some "aggregated"
      label := some (formatDateByAggregation (readDate stm.1 e.2.tsRef) aggregation) }))

/-- `st` is an untouched prefix of `st'`: the heap only grew, and no
pre-existing object was written. -/
def StoreExt (st st' : DateStore) : Prop :=
  st.length ≤ st'.length ∧ st'.take st.length = st

/-! ## Concrete example inputs -/

/-- An observation with no category and no label. -/
def pt (t : Int) (v : ℚ) : TimeSeriesDataPoint := { timestamp := t, value := v }

/-- An observation with a category. -/
def ptc (t : Int) (v : ℚ) (c : String) : TimeSeriesDataPoint :=
  { timestamp := t, value := v, category := some c }

/-- Six points whose first third (`[1, -1]`) has mean 0 and whose last
third (`[5, 5]`) has mean 5. -/
def exZeroMean : List TimeSeriesDataPoint :=
  [pt 0 1, pt 1000 (-1), pt 2000 0, pt 3000 0, pt 4000 5, pt 5000 5]

/-- Five evenly spaced points with five distinct non-empty categories. -/
def exFiveCats : List TimeSeriesDataPoint :=
  [ptc 0 1 "a", ptc 1000 1 "b", ptc 2000 1 "c", ptc 3000 1 "d", ptc 4000 1 "e"]

/-- Epoch ms of 2024-04-05 (a Friday). -/
def exApr5 : Int := 19818 * msPerDay

/-- Epoch ms of 2024-04-20 (a Saturday). -/
def exApr20 : Int := 19833 * msPerDay

/-- Epoch ms of 2024-04-02, 02:00 — a Tuesday whose week started on
Sunday 2024-03-31, in the previous month. -/
def exTue : Int := 19815 * msPerDay + 7200000

/-- Epoch ms of 2025-01-01, 02:00 — a Wednesday whose week started on
Sunday 2024-12-29, in the previous year. -/
def exNewYear : Int := 20089 * msPerDay + 7200000

/-- Two observations in the same month (April 2024) with values 10 and
20 and different categories. -/
def exMonthPair : List TimeSeriesDataPoint :=
  [ptc exApr5 10 "sales", ptc exApr20 20 "returns"]

/-- A heap with two `Date` objects and two observations referencing
them, for the frame witness. -/
def exStore : DateStore := [exApr5, exApr20]

def exRefData : List RefPoint :=
  [{ tsRef := 0, value := 10 }, { tsRef := 1, value := 20 }]

/-! ## Soundness of the `Math.sqrt` elimination -/

/-- `sqrtLtBool v c` decides `Math.sqrt v < c` for nonnegative `v`. -/
theorem sqrtLtBool_correct (v c : ℚ) :
    sqrtLtBool v c = true ↔ Real.sqrt (v : ℝ) < (c : ℝ) := by
  unfold sqrtLtBool
  rcases le_or_lt c 0 with hc | hc
  · have h1 : ¬ (0 < c ∧ v < c ^ 2) := fun h => absurd h.1 (not_lt.2 hc)
    simp only [h1, decide_eq_true_eq, false_iff, not_lt]
    calc (c : ℝ) ≤ 0 := by exact_mod_cast hc
      _ ≤ Real.sqrt (v : ℝ) := Real.sqrt_nonneg _
  · have hc' : (0 : ℝ) < (c : ℝ) := by exact_mod_cast hc
    rw [Real.sqrt_lt' hc']
    simp only [decide_eq_true_eq]
    constructor
    · rintro ⟨-, h⟩; exact_mod_cast h
    · intro h; exact ⟨hc, by exact_mod_cast h⟩

/-- `absGtTwoSqrtBool x v` decides `|x| > 2 * Math.sqrt v` for
nonnegative `v`. -/
theorem absGtTwoSqrtBool_correct (x v : ℚ) (hv : 0 ≤ v) :
    absGtTwoSqrtBool x v = true ↔ 2 * Real.sqrt (v : ℝ) < |(x : ℝ)| := by
  unfold absGtTwoSqrtBool
  have hv' : (0 : ℝ) ≤ (v : ℝ) := by exact_mod_cast hv
  have hsq : (2 * Real.sqrt (v : ℝ)) ^ 2 = 4 * (v : ℝ) := by
    rw [mul_pow, Real.sq_sqrt hv']; ring
  simp only [decide_eq_true_eq]
  constructor
  · intro h
    have hx : 4 * (v : ℝ) < (x : ℝ) ^ 2 := by exact_mod_cast h
    rw [← hsq, ← sq_abs (x : ℝ)] at hx
    exact lt_of_pow_lt_pow_left₀ 2 (abs_nonneg _) hx
  · intro h
    have h2 : (2 * Real.sqrt (v : ℝ)) ^ 2 < |(x : ℝ)| ^ 2 :=
      pow_lt_pow_left₀ h (by positivity) (by norm_num)
    rw [hsq, sq_abs] at h2
    exact_mod_cast h2

/-! ## The confidence sort -/

theorem insertByConfidence_perm (x : ChartSuggestion) (l : List ChartSuggestion) :
    List.Perm (insertByConfidence x l) (x :: l) := by
  induction l with
  | nil => exact List.Perm.refl _
  | cons y ys ih =>
    by_cases h : x.confidence < y.confidence
    · rw [insertByConfidence, if_pos h]
      exact (ih.cons y).trans (List.Perm.swap x y ys)
    · rw [insertByConfidence, if_neg h]

theorem sortByConfidenceDesc_perm (l : List ChartSuggestion) :
    List.Perm (sortByConfidenceDesc l) l := by
  induction l with
  | nil => exact List.Perm.refl _
  | cons x xs ih =>
    exact (insertByConfidence_perm x (sortByConfidenceDesc xs)).trans (ih.cons x)

theorem mem_sortByConfidenceDesc {s : ChartSuggestion} {l : List ChartSuggestion} :
    s ∈ sortByConfidenceDesc l ↔ s ∈ l :=
  (sortByConfidenceDesc_perm l).mem_iff

theorem pairwise_insertByConfidence {x : ChartSuggestion} {l : List ChartSuggestion}
    (h : l.Pairwise (fun a b => b.confidence ≤ a.confidence)) :
    (insertByConfidence x l).Pairwise (fun a b => b.confidence ≤ a.confidence) := by
  induction l with
  | nil => simp [insertByConfidence]
  | cons y ys ih =>
    rcases List.pairwise_cons.1 h with ⟨hy, hys⟩
    by_cases hc : x.confidence < y.confidence
    · rw [insertByConfidence, if_pos hc]
      refine List.pairwise_cons.2 ⟨?_, ih hys⟩
      intro z hz
      rcases List.mem_cons.1 ((insertByConfidence_perm x ys).mem_iff.1 hz) with rfl | hz'
      · exact le_of_lt hc
      · exact hy z hz'
    · rw [insertByConfidence, if_neg hc]
      refine List.pairwise_cons.2 ⟨?_, h⟩
      intro z hz
      rcases List.mem_cons.1 hz with rfl | hz'
      · exact le_of_not_lt hc
      · exact le_trans (hy z hz') (le_of_not_lt hc)

theorem sortByConfidenceDesc_sorted (l : List ChartSuggestion) :
    (sortByConfidenceDesc l).Pairwise (fun a b => b.confidence ≤ a.confidence) := by
  induction l with
  | nil => simp [sortByConfidenceDesc]
  | cons x xs ih => exact pairwise_insertByConfidence ih

theorem filter_insertByConfidence_eq {x : ChartSuggestion} {c : Nat}
    (hx : x.confidence = c) (l : List ChartSuggestion) :
    (insertByConfidence x l).filter (fun s => s.confidence == c)
      = x :: l.filter (fun s => s.confidence == c) := by
  induction l with
  | nil => simp [insertByConfidence, List.filter, hx]
  | cons y ys ih =>
    by_cases hc : x.confidence < y.confidence
    · have hy : (y.confidence == c) = false := by
        subst hx
        exact beq_eq_false_iff_ne.mpr (by omega)
      rw [insertByConfidence, if_pos hc, List.filter_cons, hy]
      simp only [Bool.false_eq_true, if_false, ih, List.filter_cons, hy]
    · rw [insertByConfidence, if_neg hc, List.filter_cons]
      have hx' : (x.confidence == c) = true := by simp [hx]
      rw [hx']
      simp

theorem filter_insertByConfidence_ne {x : ChartSuggestion} {c : Nat}
    (hx : x.confidence ≠ c) (l : List ChartSuggestion) :
    (insertByConfidence x l).filter (fun s => s.confidence == c)
      = l.filter (fun s => s.confidence == c) := by
  have hx' : (x.confidence == c) = false := beq_eq_false_iff_ne.mpr hx
  induction l with
  | nil => simp [insertByConfidence, List.filter, hx']
  | cons y ys ih =>
    by_cases hc : x.confidence < y.confidence
    · rw [insertByConfidence, if_pos hc, List.filter_cons, List.filter_cons]
      cases hyc : (y.confidence == c) <;> simp [ih]
    · rw [insertByConfidence, if_neg hc, List.filter_cons, hx']
      simp

theorem sortByConfidenceDesc_stable (l : List ChartSuggestion) (c : Nat) :
    (sortByConfidenceDesc l).filter (fun s => s.confidence == c)
      = l.filter (fun s => s.confidence == c) := by
  induction l with
  | nil => rfl
  | cons x xs ih =>
    show (insertByConfidence x (sortByConfidenceDesc xs)).filter _ = _
    by_cases hx : x.confidence = c
    · rw [filter_insertByConfidence_eq hx, ih, List.filter_cons]
      simp [hx]
    · rw [filter_insertByConfidence_ne hx, ih, List.filter_cons]
      have : (x.confidence == c) = false := beq_eq_false_iff_ne.mpr hx
      rw [this]
      simp

/-! ## First-occurrence folds -/

theorem mem_ite_singleton {α : Type} {c : Prop} [Decidable c] {a x : α} :
    a ∈ (if c then [x] else []) ↔ c ∧ a = x := by
  by_cases h : c
  · simp [h]
  · simp [h]

theorem foldl_foStep_nodup {α : Type} [DecidableEq α] (l : List α) :
    ∀ acc : List α, acc.Nodup → (l.foldl foStep acc).Nodup := by
  induction l with
  | nil => intro acc h; exact h
  | cons a l ih =>
    intro acc h
    rw [List.foldl_cons]
    apply ih
    unfold foStep
    split
    · exact h
    · next ha =>
      exact List.nodup_append.2 ⟨h, List.nodup_singleton a, by simpa using ha⟩

theorem mem_foldl_foStep {α : Type} [DecidableEq α] (l : List α) :
    ∀ (acc : List α) (k : α), k ∈ l.foldl foStep acc ↔ k ∈ acc ∨ k ∈ l := by
  induction l with
  | nil => intro acc k; simp
  | cons a l ih =>
    intro acc k
    rw [List.foldl_cons, ih]
    unfold foStep
    split
    · next ha =>
      constructor
      · rintro (h | h)
        · exact Or.inl h
        · exact Or.inr (List.mem_cons_of_mem _ h)
      · rintro (h | h)
        · exact Or.inl h
        · rcases List.mem_cons.1 h with rfl | h'
          · exact Or.inl ha
          · exact Or.inr h'
    · simp only [List.mem_append, List.mem_singleton, List.mem_cons]
      tauto

theorem firstOccurrences_nodup {α : Type} [DecidableEq α] (l : List α) :
    (firstOccurrences l).Nodup :=
  foldl_foStep_nodup l [] List.nodup_nil

theorem mem_firstOccurrences {α : Type} [DecidableEq α] {l : List α} {k : α} :
    k ∈ firstOccurrences l ↔ k ∈ l := by
  simpa using mem_foldl_foStep l [] k

theorem firstOccurrences_length_eq_dedup {α : Type} [DecidableEq α] (l : List α) :
    (firstOccurrences l).length = l.dedup.length := by
  refine List.Perm.length_eq
    (List.perm_of_nodup_nodup_toFinset_eq (firstOccurrences_nodup l) l.nodup_dedup ?_)
  ext a
  simp [List.mem_toFinset, mem_firstOccurrences, List.mem_dedup]

theorem catStep_eq (s : List String) (p : TimeSeriesDataPoint) :
    catStep s p = match truthyCategory p with
      | none => s
      | some c => foStep s c := by
  unfold catStep truthyCategory foStep
  rcases p.category with _ | c
  · rfl
  · by_cases hc : c = ""
    · simp [hc]
    · simp [hc]

theorem countUniqueCategories_foldl (data : List TimeSeriesDataPoint) :
    ∀ acc : List String,
      data.foldl catStep acc = (data.filterMap truthyCategory).foldl foStep acc := by
  induction data with
  | nil => intro acc; rfl
  | cons p data ih =>
    intro acc
    rw [List.foldl_cons, List.filterMap_cons, catStep_eq]
    cases htc : truthyCategory p with
    | none => exact ih acc
    | some c => rw [List.foldl_cons]; exact ih (foStep acc c)

/-- `countUniqueCategories` counts the distinct truthy categories,
defaulting to 1 when there are none. -/
theorem countUniqueCategories_eq (data : List TimeSeriesDataPoint) :
    countUniqueCategories data
      = max 1 ((data.filterMap truthyCategory).dedup.length) := by
  unfold countUniqueCategories
  rw [countUniqueCategories_foldl data []]
  have h := firstOccurrences_length_eq_dedup (data.filterMap truthyCategory)
  unfold firstOccurrences at h
  dsimp only
  rw [h]
  split_ifs with h0 <;> omega

/-! ## Shape of the suggestion list -/

theorem detectChartType_eq_sort {data : List TimeSeriesDataPoint} (hne : data ≠ []) :
    detectChartType data = sortByConfidenceDesc (buildSuggestions data) := by
  rw [detectChartType, if_neg]
  simpa using hne

theorem line_mem_buildSuggestions (data : List TimeSeriesDataPoint) :
    (⟨.line, if detectTrend data then 90 else if isTimeEventlyDistributed data then 85 else 70,
      if detectTrend data then "Data shows a clear trend over time, ideal for line charts"
      else "Time series data works well with line charts"⟩ : ChartSuggestion)
      ∈ buildSuggestions data := by
  unfold buildSuggestions
  exact List.mem_append_left _ (List.mem_append_left _ (List.mem_append_left _
    (List.mem_append_left _ (List.mem_singleton_self _))))

theorem mem_buildSuggestions_elim {data : List TimeSeriesDataPoint} {s : ChartSuggestion}
    (hs : s ∈ buildSuggestions data) :
    (s.type = .line ∧ (s.confidence = 90 ∨ s.confidence = 85 ∨ s.confidence = 70)) ∨
    (s.type = .bar ∧ (1 < countUniqueCategories data ∧ countUniqueCategories data < 15)
      ∧ s.confidence = (if 3 < countUniqueCategories data then 85 else 70)) ∨
    (s.type = .pie ∧ (1 < countUniqueCategories data ∧ countUniqueCategories data ≤ 7)
      ∧ s.confidence = (if countUniqueCategories data ≤ 5 then 75 else 60)) ∨
    (s.type = .area ∧ s.confidence = 75) ∨
    (s.type = .scatter ∧ (s.confidence = 80 ∨ s.confidence = 65)) := by
  unfold buildSuggestions at hs
  simp only [List.mem_append, List.mem_singleton, mem_ite_singleton] at hs
  rcases hs with ((((rfl | ⟨hc, rfl⟩) | ⟨hc, rfl⟩) | ⟨hc, rfl⟩) | ⟨hc, rfl⟩)
  · exact Or.inl ⟨rfl, by dsimp only; split_ifs <;> simp⟩
  · exact Or.inr (Or.inl ⟨rfl, hc, rfl⟩)
  · exact Or.inr (Or.inr (Or.inl ⟨rfl, hc, rfl⟩))
  · exact Or.inr (Or.inr (Or.inr (Or.inl ⟨rfl, rfl⟩)))
  · exact Or.inr (Or.inr (Or.inr (Or.inr ⟨rfl, by dsimp only; split_ifs <;> simp⟩)))

/-! ## Claim theorems: Chart Type Advisor -/

/-- C6: the empty input yields exactly one suggestion, of type `line`
with confidence 80. -/
theorem advisor_empty_default :
    detectChartType [] = [{ type := .line, confidence := 80,
                            reason := "Default chart type for time series data" }] := rfl

/-- C8: below the minimum sample counts the statistics return fixed
fallbacks rather than NaN: `detectTrend` is `false` for fewer than 6
points, `isTimeEventlyDistributed` is `true` for fewer than 3, and
`detectOutliers` is `0` for fewer than 4. -/
theorem advisor_min_sample_fallbacks :
    (∀ data : List TimeSeriesDataPoint, data.length < 6 → detectTrend data = false) ∧
    (∀ data : List TimeSeriesDataPoint, data.length < 3 → isTimeEventlyDistributed data = true) ∧
    (∀ data : List TimeSeriesDataPoint, data.length < 4 → detectOutliers data = 0) := by
  refine ⟨fun data h => ?_, fun data h => ?_, fun data h => ?_⟩
  · rw [detectTrend, if_pos h]
  · rw [isTimeEventlyDistributed, if_pos h]
  · rw [detectOutliers, if_pos h]

theorem advisor_min_sample_fallbacks_witness :
    detectTrend exFiveCats = false ∧
    isTimeEventlyDistributed (exFiveCats.take 2) = true ∧
    detectOutliers (exFiveCats.take 3) = 0 :=
  ⟨advisor_min_sample_fallbacks.1 exFiveCats (by decide),
   advisor_min_sample_fallbacks.2.1 _ (by decide),
   advisor_min_sample_fallbacks.2.2 _ (by decide)⟩

/-- C1 counterexample: a six-point input whose first-third mean is 0 on
which `detectTrend` returns `true`, not `false` — the code has no
zero-mean special case; it evaluates `|5 - 0| > 0 * 0.1`, which holds. -/
theorem detectTrend_zero_mean_counterexample :
    exZeroMean.length = 6 ∧ firstThirdAvg exZeroMean = 0 ∧
      detectTrend exZeroMean = true := by
  refine ⟨rfl, ?_, ?_⟩
  · norm_num [firstThirdAvg, exZeroMean, pt]
  · rw [detectTrend]
    norm_num [firstThirdAvg, lastThirdAvg, exZeroMean, pt]

/-- C1 amended: for inputs of length ≥ 6 whose first-third mean is 0,
`detectTrend` reports a trend iff the last-third mean is nonzero (the
comparison multiplies by the threshold instead of dividing, so no
division by zero occurs, and no zero special case exists). -/
theorem detectTrend_zero_mean_amended (data : List TimeSeriesDataPoint)
    (h6 : 6 ≤ data.length) (h0 : firstThirdAvg data = 0) :
    (detectTrend data = true ↔ lastThirdAvg data ≠ 0) := by
  rw [detectTrend, if_neg (by omega), h0]
  simp [sub_zero, abs_pos]

theorem detectTrend_zero_mean_amended_witness :
    detectTrend exZeroMean = true ↔ lastThirdAvg exZeroMean ≠ 0 :=
  detectTrend_zero_mean_amended exZeroMean (by decide)
    (by norm_num [firstThirdAvg, exZeroMean, pt])

/-- C2: for every non-empty input, `detectChartType` returns a
non-empty list, sorted by confidence descending, stable (suggestions of
equal confidence keep their push order), with every confidence in
`[0, 100]`. -/
theorem advisor_output_invariants (data : List TimeSeriesDataPoint) (hne : data ≠ []) :
    detectChartType data ≠ [] ∧
    (detectChartType data).Pairwise (fun a b => b.confidence ≤ a.confidence) ∧
    (∀ c : Nat, (detectChartType data).filter (fun s => s.confidence == c)
        = (buildSuggestions data).filter (fun s => s.confidence == c)) ∧
    (∀ s ∈ detectChartType data, 0 ≤ s.confidence ∧ s.confidence ≤ 100) := by
  have hdef := detectChartType_eq_sort hne
  refine ⟨?_, ?_, ?_, ?_⟩
  · rw [hdef]
    intro hnil
    have hline := line_mem_buildSuggestions data
    rw [← mem_sortByConfidenceDesc, hnil] at hline
    exact absurd hline (List.not_mem_nil _)
  · rw [hdef]; exact sortByConfidenceDesc_sorted _
  · intro c; rw [hdef]; exact sortByConfidenceDesc_stable _ c
  · intro s hs
    rw [hdef, mem_sortByConfidenceDesc] at hs
    refine ⟨Nat.zero_le _, ?_⟩
    rcases mem_buildSuggestions_elim hs with h | h | h | h | h
    · rcases h.2 with h' | h' | h' <;> omega
    · rcases h with ⟨-, -, h'⟩; split_ifs at h' <;> omega
    · rcases h with ⟨-, -, h'⟩; split_ifs at h' <;> omega
    · omega
    · rcases h.2 with h' | h' <;> omega

theorem advisor_output_invariants_witness :
    detectChartType exFiveCats ≠ [] ∧
    (detectChartType exFiveCats).Pairwise (fun a b => b.confidence ≤ a.confidence) ∧
    (∀ c : Nat, (detectChartType exFiveCats).filter (fun s => s.confidence == c)
        = (buildSuggestions exFiveCats).filter (fun s => s.confidence == c)) ∧
    (∀ s ∈ detectChartType exFiveCats, 0 ≤ s.confidence ∧ s.confidence ≤ 100) :=
  advisor_output_invariants exFiveCats (by decide)

/-- C7: a `bar` suggestion is emitted exactly when
`1 < uniqueCategories < 15` (confidence 85 above 3 categories, else
70); a `pie` suggestion exactly when `1 < uniqueCategories ≤ 7`
(confidence 75 up to 5 categories, else 60); `uniqueCategories` counts
the distinct truthy (present, non-empty) category values and defaults
to 1 when there are none. -/
theorem advisor_bar_pie_rules (data : List TimeSeriesDataPoint) :
    ((∃ s ∈ detectChartType data, s.type = .bar) ↔
        1 < countUniqueCategories data ∧ countUniqueCategories data < 15) ∧
    (∀ s ∈ detectChartType data, s.type = .bar →
        s.confidence = if 3 < countUniqueCategories data then 85 else 70) ∧
    ((∃ s ∈ detectChartType data, s.type = .pie) ↔
        1 < countUniqueCategories data ∧ countUniqueCategories data ≤ 7) ∧
    (∀ s ∈ detectChartType data, s.type = .pie →
        s.confidence = if countUniqueCategories data ≤ 5 then 75 else 60) ∧
    countUniqueCategories data = max 1 ((data.filterMap truthyCategory).dedup.length) := by
  by_cases hne : data = []
  · subst hne
    exact ⟨by decide, by decide, by decide, by decide, countUniqueCategories_eq []⟩
  · have hdef := detectChartType_eq_sort hne
    refine ⟨⟨?_, ?_⟩, ?_, ⟨?_, ?_⟩, ?_, countUniqueCategories_eq data⟩
    · rintro ⟨s, hs, htype⟩
      rw [hdef, mem_sortByConfidenceDesc] at hs
      rcases mem_buildSuggestions_elim hs with h | h | h | h | h
      · rw [h.1] at htype; exact absurd htype (by decide)
      · exact h.2.1
      · rw [h.1] at htype; exact absurd htype (by decide)
      · rw [h.1] at htype; exact absurd htype (by decide)
      · rw [h.1] at htype; exact absurd htype (by decide)
    · rintro ⟨h1, h2⟩
      refine ⟨⟨.bar, if countUniqueCategories data > 3 then 85 else 70,
        s!"{countUniqueCategories data} distinct categories, good for bar comparison"⟩,
        ?_, rfl⟩
      rw [hdef, mem_sortByConfidenceDesc]
      unfold buildSuggestions
      refine List.mem_append_left _ (List.mem_append_left _ (List.mem_append_left _
        (List.mem_append_right _ ?_)))
      rw [if_pos ⟨h1, h2⟩]
      exact List.mem_singleton_self _
    · intro s hs htype
      rw [hdef, mem_sortByConfidenceDesc] at hs
      rcases mem_buildSuggestions_elim hs with h | h | h | h | h
      · rw [h.1] at htype; exact absurd htype (by decide)
      · exact h.2.2
      · rw [h.1] at htype; exact absurd htype (by decide)
      · rw [h.1] at htype; exact absurd htype (by decide)
      · rw [h.1] at htype; exact absurd htype (by decide)
    · rintro ⟨s, hs, htype⟩
      rw [hdef, mem_sortByConfidenceDesc] at hs
      rcases mem_buildSuggestions_elim hs with h | h | h | h | h
      · rw [h.1] at htype; exact absurd htype (by decide)
      · rw [h.1] at htype; exact absurd htype (by decide)
      · exact h.2.1
      · rw [h.1] at htype; exact absurd htype (by decide)
      · rw [h.1] at htype; exact absurd htype (by decide)
    · rintro ⟨h1, h2⟩
      refine ⟨⟨.pie, if countUniqueCategories data ≤ 5 then 75 else 60,
        s!"{countUniqueCategories data} categories, suitable for showing proportions"⟩,
        ?_, rfl⟩
      rw [hdef, mem_sortByConfidenceDesc]
      unfold buildSuggestions
      refine List.mem_append_left _ (List.mem_append_left _ (List.mem_append_right _ ?_))
      rw [if_pos ⟨h1, h2⟩]
      exact List.mem_singleton_self _
    · intro s hs htype
      rw [hdef, mem_sortByConfidenceDesc] at hs
      rcases mem_buildSuggestions_elim hs with h | h | h | h | h
      · rw [h.1] at htype; exact absurd htype (by decide)
      · rw [h.1] at htype; exact absurd htype (by decide)
      · exact h.2.2
      · rw [h.1] at htype; exact absurd htype (by decide)
      · rw [h.1] at htype; exact absurd htype (by decide)

theorem advisor_bar_pie_rules_witness :
    (∃ s ∈ detectChartType exFiveCats, s.type = .bar) ∧
    (∀ s ∈ detectChartType exFiveCats, s.type = .bar → s.confidence = 85) ∧
    (∃ s ∈ detectChartType exFiveCats, s.type = .pie) ∧
    (∀ s ∈ detectChartType exFiveCats, s.type = .pie → s.confidence = 75) := by
  have h := advisor_bar_pie_rules exFiveCats
  have hu : countUniqueCategories exFiveCats = 5 := by decide
  refine ⟨h.1.mpr (by rw [hu]; exact ⟨by norm_num, by norm_num⟩), ?_,
    h.2.2.1.mpr (by rw [hu]; exact ⟨by norm_num, by norm_num⟩), ?_⟩
  · intro s hs ht
    have hc := h.2.1 s hs ht
    rw [hu] at hc
    norm_num at hc
    exact hc
  · intro s hs ht
    have hc := h.2.2.2.1 s hs ht
    rw [hu] at hc
    norm_num at hc
    exact hc

/-! ## Bucket map: key order -/

theorem any_key_iff {β : Type} (m : List (String × β)) (k : String) :
    (m.any (fun e => e.1 == k)) = true ↔ k ∈ m.map Prod.fst := by
  simp only [List.any_eq_true, List.mem_map, beq_iff_eq]

theorem keys_insertPoint (m : List (String × AggGroup)) (k : String)
    (p : TimeSeriesDataPoint) :
    (insertPoint m k p).map Prod.fst = foStep (m.map Prod.fst) k := by
  unfold insertPoint foStep
  by_cases hk : k ∈ m.map Prod.fst
  · rw [if_pos ((any_key_iff m k).2 hk), if_pos hk, List.map_map]
    apply List.map_congr_left
    intro e he
    by_cases h : e.1 = k <;> simp [h]
  · rw [if_neg (fun h => hk ((any_key_iff m k).1 h)), if_neg hk, List.map_append]
    rfl

theorem keys_foldl_insertPoint (agg : Aggregation) (data : List TimeSeriesDataPoint) :
    ∀ m : List (String × AggGroup),
      ((data.foldl (fun m p => insertPoint m (bucketKey agg p.timestamp) p) m).map Prod.fst)
        = (data.map (fun p => bucketKey agg p.timestamp)).foldl foStep (m.map Prod.fst) := by
  induction data with
  | nil => intro m; rfl
  | cons p data ih =>
    intro m
    rw [List.foldl_cons, List.map_cons, List.foldl_cons, ih, keys_insertPoint]

theorem keys_groupPoints (data : List TimeSeriesDataPoint) (agg : Aggregation) :
    (groupPoints data agg).map Prod.fst
      = firstOccurrences (data.map (fun p => bucketKey agg p.timestamp)) := by
  unfold groupPoints firstOccurrences
  exact keys_foldl_insertPoint agg data []

/-- C4: the aggregation produces exactly one output per distinct bucket
key, and the buckets appear in the order their keys were first
encountered in the input (insertion order of first occurrence), not
sorted chronologically. -/
theorem aggregate_bucket_order (data : List TimeSeriesDataPoint) (agg : Aggregation) :
    (groupPoints data agg).map Prod.fst
        = firstOccurrences (data.map (fun p => bucketKey agg p.timestamp)) ∧
    ((groupPoints data agg).map Prod.fst).Nodup ∧
    (∀ k : String, k ∈ (groupPoints data agg).map Prod.fst
        ↔ k ∈ data.map (fun p => bucketKey agg p.timestamp)) ∧
    (aggregateTimeSeriesData data agg).length = (groupPoints data agg).length := by
  refine ⟨keys_groupPoints data agg, ?_, ?_, ?_⟩
  · rw [keys_groupPoints]; exact firstOccurrences_nodup _
  · intro k; rw [keys_groupPoints]; exact mem_firstOccurrences
  · unfold aggregateTimeSeriesData; exact List.length_map _ _

/-! ## Bucket map: contents -/

theorem lookupGroup_insertPoint (m : List (String × AggGroup)) (key : String)
    (p : TimeSeriesDataPoint) (k : String) :
    lookupGroup (insertPoint m key p) k =
      if k = key then
        some (match lookupGroup m key with
          | none => { sum := p.value, count := 1, timestamp := p.timestamp }
          | some g => { sum := g.sum + p.value, count := g.count + 1,
                        timestamp := g.timestamp })
      else lookupGroup m k := by
  unfold insertPoint lookupGroup
  by_cases hmem : (m.any (fun e => e.1 == key)) = true
  · rw [if_pos hmem, List.find?_map]
    have hcomp : ((fun e : String × AggGroup => e.1 == k) ∘ (fun e =>
        if e.1 == key then
          (e.1, { e.2 with sum := e.2.sum + p.value, count := e.2.count + 1 })
        else e))
        = fun e : String × AggGroup => e.1 == k := by
      funext e
      by_cases h : e.1 = key <;> simp [h]
    rw [hcomp]
    by_cases hk : k = key
    · subst hk
      rcases hfind : m.find? (fun e => e.1 == k) with _ | e₀
      · exfalso
        rw [List.find?_eq_none] at hfind
        rcases List.any_eq_true.1 hmem with ⟨e, he, hbeq⟩
        exact hfind e he hbeq
      · have he₀ : (e₀.1 == k) = true := by
          have h := List.find?_some hfind
          exact h
        have he := beq_iff_eq.1 he₀
        simp [hfind, he]
    · rw [if_neg hk]
      rcases hfind : m.find? (fun e => e.1 == k) with _ | e₀
      · simp [hfind]
      · have he₀ : e₀.1 = k := by
          have h : (e₀.1 == k) = true := by
            have h' := List.find?_some hfind
            exact h'
          rwa [beq_iff_eq] at h
        have hne : e₀.1 ≠ key := by rw [he₀]; exact hk
        simp [hfind, hne]
  · rw [if_neg hmem, List.find?_append]
    have hnone : m.find? (fun e => e.1 == key) = none := by
      rw [List.find?_eq_none]
      intro e he hbeq
      exact hmem (List.any_eq_true.2 ⟨e, he, hbeq⟩)
    by_cases hk : k = key
    · subst hk
      simp [hnone]
    · have hkey : (key == k) = false := beq_eq_false_iff_ne.mpr (fun h => hk h.symm)
      rw [if_neg hk]
      rcases hfind : m.find? (fun e => e.1 == k) with _ | e₀
      · simp [hfind, hkey]
      · simp [hfind]

theorem lookupGroup_foldl (agg : Aggregation) (data : List TimeSeriesDataPoint) :
    ∀ (m : List (String × AggGroup)) (k : String),
      lookupGroup (data.foldl (fun m p => insertPoint m (bucketKey agg p.timestamp) p) m) k
        = extendGroup (lookupGroup m k)
            (data.filter (fun p => bucketKey agg p.timestamp == k)) := by
  induction data with
  | nil => intro m k; rfl
  | cons p data ih =>
    intro m k
    rw [List.foldl_cons, ih, List.filter_cons]
    by_cases hk : bucketKey agg p.timestamp = k
    · rw [if_pos (by simp [hk]), lookupGroup_insertPoint, if_pos hk.symm, hk]
      cases hlg : lookupGroup m k <;> rfl
    · rw [if_neg (by simp [hk]), lookupGroup_insertPoint, if_neg (fun h => hk h.symm)]

theorem lookupGroup_groupPoints (data : List TimeSeriesDataPoint) (agg : Aggregation)
    (k : String) :
    lookupGroup (groupPoints data agg) k
      = extendGroup none (data.filter (fun p => bucketKey agg p.timestamp == k)) := by
  unfold groupPoints
  rw [lookupGroup_foldl agg data [] k]
  rfl

theorem extendGroup_some (l : List TimeSeriesDataPoint) :
    ∀ g : AggGroup, extendGroup (some g) l
      = some { sum := g.sum + (l.map TimeSeriesDataPoint.value).sum,
               count := g.count + l.length, timestamp := g.timestamp } := by
  induction l with
  | nil => intro g; simp [extendGroup]
  | cons p l ih =>
    intro g
    rw [show extendGroup (some g) (p :: l)
        = extendGroup (some { sum := g.sum + p.value, count := g.count + 1,
                              timestamp := g.timestamp }) l from rfl, ih]
    simp only [List.map_cons, List.sum_cons, List.length_cons, Option.some.injEq,
      AggGroup.mk.injEq]
    refine ⟨by ring, by omega, by trivial⟩

theorem extendGroup_none_cons (p : TimeSeriesDataPoint) (l : List TimeSeriesDataPoint) :
    extendGroup none (p :: l)
      = some { sum := ((p :: l).map TimeSeriesDataPoint.value).sum,
               count := (p :: l).length, timestamp := p.timestamp } := by
  rw [show extendGroup none (p :: l)
      = extendGroup (some { sum := p.value, count := 1, timestamp := p.timestamp }) l
      from rfl, extendGroup_some]
  simp only [List.map_cons, List.sum_cons, List.length_cons, Option.some.injEq,
    AggGroup.mk.injEq]
  refine ⟨by trivial, by omega, by trivial⟩

theorem find?_eq_of_mem_nodup {m : List (String × AggGroup)} {k : String} {g : AggGroup}
    (hnd : (m.map Prod.fst).Nodup) (hmem : (k, g) ∈ m) :
    m.find? (fun e => e.1 == k) = some (k, g) := by
  induction m with
  | nil => cases hmem
  | cons e m ih =>
    rcases List.mem_cons.1 hmem with rfl | hmem'
    · rw [List.find?_cons]
      simp
    · have hkm : k ∈ m.map Prod.fst := List.mem_map.2 ⟨(k, g), hmem', rfl⟩
      rw [List.map_cons] at hnd
      have hk : e.1 ≠ k := fun h => (List.nodup_cons.1 hnd).1 (h ▸ hkm)
      rw [List.find?_cons]
      have hbeq : (e.1 == k) = false := beq_eq_false_iff_ne.mpr hk
      rw [hbeq]
      exact ih (List.nodup_cons.1 hnd).2 hmem'

theorem groupPoints_entry_spec {data : List TimeSeriesDataPoint} {agg : Aggregation}
    {k : String} {g : AggGroup} (hmem : (k, g) ∈ groupPoints data agg) :
    ∃ (p : TimeSeriesDataPoint) (rest : List TimeSeriesDataPoint),
      data.filter (fun q => bucketKey agg q.timestamp == k) = p :: rest ∧
      g.sum = ((p :: rest).map TimeSeriesDataPoint.value).sum ∧
      g.count = (p :: rest).length ∧ g.timestamp = p.timestamp ∧
      bucketKey agg p.timestamp = k := by
  have hnd : ((groupPoints data agg).map Prod.fst).Nodup := by
    rw [keys_groupPoints]; exact firstOccurrences_nodup _
  have hlk : lookupGroup (groupPoints data agg) k = some g := by
    unfold lookupGroup
    rw [find?_eq_of_mem_nodup hnd hmem]
    rfl
  rw [lookupGroup_groupPoints] at hlk
  rcases hfil : data.filter (fun q => bucketKey agg q.timestamp == k) with _ | ⟨p, rest⟩
  · rw [hfil] at hlk
    exact absurd hlk (by simp [extendGroup])
  · rw [hfil, extendGroup_none_cons] at hlk
    have hg := (Option.some.inj hlk).symm
    have hpred : (bucketKey agg p.timestamp == k) = true := by
      have hp : p ∈ data.filter (fun q => bucketKey agg q.timestamp == k) := by
        rw [hfil]; exact List.mem_cons_self p rest
      exact (List.mem_filter.1 hp).2
    exact ⟨p, rest, hfil, by rw [hg], by rw [hg], by rw [hg], beq_iff_eq.1 hpred⟩

/-- C5: every output of `aggregateTimeSeriesData` carries the constant
`'aggregated'` category marker, the timestamp of the first raw
observation that fell into its bucket, and the arithmetic mean of all
raw values mapped to that bucket. -/
theorem aggregate_output_spec (data : List TimeSeriesDataPoint) (agg : Aggregation)
    (o : TimeSeriesDataPoint) (ho : o ∈ aggregateTimeSeriesData data agg) :
    o.category = some "aggregated" ∧
    ∃ (k : String) (p : TimeSeriesDataPoint) (rest : List TimeSeriesDataPoint),
      data.filter (fun q => bucketKey agg q.timestamp == k) = p :: rest ∧
      bucketKey agg p.timestamp = k ∧
      o.timestamp = p.timestamp ∧
      o.value = ((p :: rest).map TimeSeriesDataPoint.value).sum / (((p :: rest).length : ℚ)) := by
  unfold aggregateTimeSeriesData at ho
  rcases List.mem_map.1 ho with ⟨⟨k, g⟩, hmem, rfl⟩
  rcases groupPoints_entry_spec hmem with ⟨p, rest, hfil, hsum, hcount, hts, hkey⟩
  exact ⟨rfl, k, p, rest, hfil, hkey, hts, by rw [hsum, hcount]⟩

theorem aggregate_output_spec_witness :
    (aggregateTimeSeriesData exMonthPair .monthly).map TimeSeriesDataPoint.value = [15] ∧
    (∀ o ∈ aggregateTimeSeriesData exMonthPair .monthly,
      o.category = some "aggregated") := by
  constructor
  · have h : bucketKey .monthly exApr20 = bucketKey .monthly exApr5 := by decide
    simp only [aggregateTimeSeriesData, groupPoints, List.foldl, insertPoint, exMonthPair,
      ptc, h, List.any_nil, List.any_cons, beq_self_eq_true, Bool.or_true, Bool.true_or,
      List.nil_append, if_true, List.map_cons, List.map_nil, List.cons_append]
    norm_num
  · intro o ho
    exact (aggregate_output_spec exMonthPair .monthly o ho).1

/-! ## Category independence of the aggregation -/

theorem insertPoint_proj (m : List (String × AggGroup)) (k : String)
    (p q : TimeSeriesDataPoint) (hts : p.timestamp = q.timestamp)
    (hv : p.value = q.value) : insertPoint m k p = insertPoint m k q := by
  unfold insertPoint
  rw [hts, hv]

theorem foldl_insertPoint_proj (agg : Aggregation) :
    ∀ (data data' : List TimeSeriesDataPoint),
      data.map (fun p => (p.timestamp, p.value))
        = data'.map (fun p => (p.timestamp, p.value)) →
      ∀ m : List (String × AggGroup),
        data.foldl (fun m p => insertPoint m (bucketKey agg p.timestamp) p) m
          = data'.foldl (fun m p => insertPoint m (bucketKey agg p.timestamp) p) m := by
  intro data
  induction data with
  | nil =>
    intro data' h m
    cases data' with
    | nil => rfl
    | cons q data' => simp at h
  | cons p data ih =>
    intro data' h m
    cases data' with
    | nil => simp at h
    | cons q data' =>
      simp only [List.map_cons, List.cons.injEq, Prod.mk.injEq] at h
      rcases h with ⟨⟨hts, hv⟩, hrest⟩
      rw [List.foldl_cons, List.foldl_cons, hts,
        insertPoint_proj m (bucketKey agg q.timestamp) p q hts hv]
      exact ih data' hrest _

/-- C10: the bucket key depends only on the timestamp, never on the
category: the aggregation result is unchanged under arbitrary
relabelling of categories, and two observations of the same calendar
period — whatever their categories — merge into one output holding
their mean, with the original category values discarded in favour of
the `'aggregated'` marker. -/
theorem aggregate_ignores_category :
    (∀ (agg : Aggregation) (data data' : List TimeSeriesDataPoint),
      data.map (fun p => (p.timestamp, p.value))
        = data'.map (fun p => (p.timestamp, p.value)) →
      aggregateTimeSeriesData data agg = aggregateTimeSeriesData data' agg) ∧
    (∀ (agg : Aggregation) (p q : TimeSeriesDataPoint),
      bucketKey agg p.timestamp = bucketKey agg q.timestamp →
      aggregateTimeSeriesData [p, q] agg
        = [{ timestamp := p.timestamp, value := (p.value + q.value) / 2,
             category := some "aggregated",
             label := some (formatDateByAggregation p.timestamp agg) }]) := by
  constructor
  · intro agg data data' h
    unfold aggregateTimeSeriesData groupPoints
    rw [foldl_insertPoint_proj agg data data' h]
  · intro agg p q hkey
    unfold aggregateTimeSeriesData groupPoints
    rw [List.foldl_cons, List.foldl_cons, List.foldl_nil]
    have h1 : insertPoint [] (bucketKey agg p.timestamp) p
        = [(bucketKey agg p.timestamp,
            { sum := p.value, count := 1, timestamp := p.timestamp })] := rfl
    rw [h1]
    have h2 : insertPoint
        [(bucketKey agg p.timestamp,
          { sum := p.value, count := 1, timestamp := p.timestamp })]
        (bucketKey agg q.timestamp) q
        = [(bucketKey agg p.timestamp,
            { sum := p.value + q.value, count := 2, timestamp := p.timestamp })] := by
      unfold insertPoint
      rw [← hkey]
      simp
    rw [h2, List.map_cons, List.map_nil]
    norm_num

theorem aggregate_ignores_category_witness :
    aggregateTimeSeriesData exMonthPair .monthly
      = [{ timestamp := exApr5, value := 15, category := some "aggregated",
           label := some (formatDateByAggregation exApr5 .monthly) }] := by
  have h := aggregate_ignores_category.2 .monthly (ptc exApr5 10 "sales")
    (ptc exApr20 20 "returns") (by decide)
  rw [show exMonthPair = [ptc exApr5 10 "sales", ptc exApr20 20 "returns"] from rfl, h]
  norm_num [ptc]

/-! ## The weekly bucket key -/

theorem daysFromMs_sub_days (t k : Int) :
    daysFromMs (t - k * msPerDay) = daysFromMs t - k := by
  unfold daysFromMs
  rw [Int.fdiv_eq_ediv _ (by decide : (0 : Int) ≤ msPerDay),
    Int.fdiv_eq_ediv _ (by decide : (0 : Int) ≤ msPerDay),
    show t - k * msPerDay = t + (-k) * msPerDay from by ring,
    Int.add_mul_ediv_right t (-k) (by decide : msPerDay ≠ 0)]
  ring

theorem jsSetDate_weekly_days (t : Int) :
    daysFromMs (jsSetDate t (getDate t - getDay t)) = daysFromMs t - getDay t := by
  unfold jsSetDate
  rw [show t + (getDate t - getDay t - getDate t) * msPerDay
      = t - getDay t * msPerDay from by ring, daysFromMs_sub_days]

theorem getFullYear_weekly_start (t : Int) :
    getFullYear (jsSetDate t (getDate t - getDay t))
      = (civilFromDays (daysFromMs t - getDay t)).1 := by
  unfold getFullYear
  rw [jsSetDate_weekly_days]

theorem getMonth_weekly_start (t : Int) :
    getMonth (jsSetDate t (getDate t - getDay t))
      = (civilFromDays (daysFromMs t - getDay t)).2.1 - 1 := by
  unfold getMonth
  rw [jsSetDate_weekly_days]

theorem getDate_weekly_start (t : Int) :
    getDate (jsSetDate t (getDate t - getDay t))
      = (civilFromDays (daysFromMs t - getDay t)).2.2 := by
  conv_lhs => rw [getDate]
  rw [jsSetDate_weekly_days]

/-- C3: under weekly granularity the bucket key is built from the
normalized date obtained by subtracting `dayOfWeek` days (`getDay`,
Sunday = 0) — its own year, month and day, also across month and year
boundaries: Tuesday 2024-04-02 keys to `2024-3-31` and Wednesday
2025-01-01 keys to `2024-12-29`; and every observation is assigned to
the bucket keyed from its own timestamp this way. -/
theorem weekly_bucket_key_spec :
    (∀ t : Int, bucketKey .weekly t = weeklyKeySpec t) ∧
    (∀ (data : List TimeSeriesDataPoint) (p : TimeSeriesDataPoint), p ∈ data →
      bucketKey .weekly p.timestamp ∈ (groupPoints data .weekly).map Prod.fst) ∧
    (getDay exTue = 2 ∧ getMonth exTue + 1 = 4 ∧ getFullYear exTue = 2024 ∧
      bucketKey .weekly exTue = "2024-3-31") ∧
    (getDay exNewYear = 3 ∧ getFullYear exNewYear = 2025 ∧
      bucketKey .weekly exNewYear = "2024-12-29") := by
  refine ⟨?_, ?_, by decide, by decide⟩
  · intro t
    rw [show bucketKey .weekly t
        = s!"{getFullYear (jsSetDate t (getDate t - getDay t))}-{getMonth (jsSetDate t (getDate t - getDay t)) + 1}-{getDate (jsSetDate t (getDate t - getDay t))}"
        from rfl]
    rw [getFullYear_weekly_start, getMonth_weekly_start, getDate_weekly_start,
      Int.sub_add_cancel]
    rfl
  · intro data p hp
    rw [keys_groupPoints, mem_firstOccurrences]
    exact List.mem_map.2 ⟨p, hp, rfl⟩

theorem weekly_bucket_key_spec_witness :
    bucketKey .weekly (ptc exTue 1 "a").timestamp
      ∈ (groupPoints [ptc exTue 1 "a"] .weekly).map Prod.fst :=
  weekly_bucket_key_spec.2.1 [ptc exTue 1 "a"] _ (List.mem_singleton_self _)

/-! ## Frame behavior of the aggregation -/

theorem storeExt_refl (st : DateStore) : StoreExt st st :=
  ⟨le_refl _, List.take_length st⟩

theorem storeExt_trans {a b c : DateStore} (h1 : StoreExt a b) (h2 : StoreExt b c) :
    StoreExt a c := by
  refine ⟨le_trans h1.1 h2.1, ?_⟩
  have h : c.take a.length = (c.take b.length).take a.length := by
    rw [List.take_take, min_eq_left h1.1]
  rw [h, h2.2, h1.2]

theorem storeExt_append (st : DateStore) (l : List Int) : StoreExt st (st ++ l) :=
  ⟨by simp, List.take_left st l⟩

theorem take_set_of_le (l : DateStore) (i : Nat) (v : Int) (n : Nat) (h : n ≤ i) :
    (l.set i v).take n = l.take n := by
  apply List.ext_getElem?
  intro m
  by_cases hm : m < n
  · rw [List.getElem?_take_of_lt hm, List.getElem?_take_of_lt hm,
      List.getElem?_set_ne (by omega)]
  · rw [List.getElem?_eq_none (le_trans (List.length_take_le n _) (by omega)),
      List.getElem?_eq_none (le_trans (List.length_take_le n _) (by omega))]

theorem storeExt_set {st st' : DateStore} (h : StoreExt st st') {i : Nat}
    (hi : st.length ≤ i) (v : Int) : StoreExt st (st'.set i v) := by
  refine ⟨by rw [List.length_set]; exact h.1, ?_⟩
  rw [take_set_of_le st' i v st.length hi, h.2]

theorem readDate_storeExt {st st' : DateStore} (h : StoreExt st st') {r : Nat}
    (hr : r < st.length) : readDate st' r = readDate st r := by
  unfold readDate
  rw [List.getD_eq_getElem?_getD, List.getD_eq_getElem?_getD]
  have hget : st'[r]? = st[r]? := by
    conv_rhs => rw [← h.2]
    rw [List.getElem?_take_of_lt hr]
  rw [hget]

theorem readDate_set_self {st : DateStore} {i : Nat} (h : i < st.length) (v : Int) :
    readDate (st.set i v) i = v := by
  unfold readDate
  rw [List.getD_eq_getElem?_getD, List.getElem?_set_self h]
  rfl

theorem bucketKeyRef_spec (st : DateStore) (agg : Aggregation) (r : Nat) :
    StoreExt st (bucketKeyRef st agg r).1 ∧
    (bucketKeyRef st agg r).2 = bucketKey agg (readDate st r) := by
  cases agg with
  | daily => exact ⟨storeExt_refl st, rfl⟩
  | monthly => exact ⟨storeExt_refl st, rfl⟩
  | weekly =>
    simp only [bucketKeyRef, allocDate]
    have hlen : st.length < (st ++ [readDate st r]).length := by simp
    have hsw := readDate_set_self hlen
      (jsSetDate (readDate st r) (getDate (readDate st r) - getDay (readDate st r)))
    refine ⟨storeExt_set (storeExt_append st _) le_rfl _, ?_⟩
    rw [hsw]
    rfl

theorem foldl_stepRef_inv (agg : Aggregation) (data : List RefPoint) :
    ∀ (st₀ st : DateStore) (m : List (String × RefGroup)),
      StoreExt st₀ st → (∀ p ∈ data, p.tsRef < st₀.length) →
      (∀ e ∈ m, st₀.length ≤ e.2.tsRef) →
      StoreExt st (data.foldl (stepRef agg) (st, m)).1 ∧
      ((data.foldl (stepRef agg) (st, m)).2.map Prod.fst
        = (data.map (fun p => bucketKey agg (readDate st₀ p.tsRef))).foldl foStep
            (m.map Prod.fst)) ∧
      (∀ e ∈ (data.foldl (stepRef agg) (st, m)).2, st₀.length ≤ e.2.tsRef) := by
  induction data with
  | nil =>
    intro st₀ st m hext hrefs hm
    exact ⟨storeExt_refl st, rfl, hm⟩
  | cons p data ih =>
    intro st₀ st m hext hrefs hm
    have hp : p.tsRef < st₀.length := hrefs p (List.mem_cons_self _ _)
    have hread : readDate st p.tsRef = readDate st₀ p.tsRef := readDate_storeExt hext hp
    obtain ⟨hext1, hkey⟩ := bucketKeyRef_spec st agg p.tsRef
    rw [List.foldl_cons, List.map_cons, List.foldl_cons]
    by_cases hany : (m.any (fun e => e.1 == (bucketKeyRef st agg p.tsRef).2)) = true
    · have hstep : stepRef agg (st, m) p
          = ((bucketKeyRef st agg p.tsRef).1, m.map (fun e =>
              if e.1 == (bucketKeyRef st agg p.tsRef).2 then
                (e.1, { e.2 with sum := e.2.sum + p.value, count := e.2.count + 1 })
              else e)) := by
        unfold stepRef
        rw [if_pos hany]
      rw [hstep]
      have hm' : ∀ e ∈ m.map (fun e =>
          if e.1 == (bucketKeyRef st agg p.tsRef).2 then
            (e.1, { e.2 with sum := e.2.sum + p.value, count := e.2.count + 1 })
          else e), st₀.length ≤ e.2.tsRef := by
        intro e he
        rcases List.mem_map.1 he with ⟨e', he', rfl⟩
        have h2 := hm e' he'
        by_cases h : (e'.1 == (bucketKeyRef st agg p.tsRef).2) = true <;> simp [h, h2]
      obtain ⟨hA, hB, hC⟩ := ih st₀ (bucketKeyRef st agg p.tsRef).1 _
        (storeExt_trans hext hext1)
        (fun q hq => hrefs q (List.mem_cons_of_mem _ hq)) hm'
      refine ⟨storeExt_trans hext1 hA, ?_, hC⟩
      rw [hB]
      have hmapfst : (m.map (fun e =>
          if e.1 == (bucketKeyRef st agg p.tsRef).2 then
            (e.1, { e.2 with sum := e.2.sum + p.value, count := e.2.count + 1 })
          else e)).map Prod.fst = m.map Prod.fst := by
        rw [List.map_map]
        apply List.map_congr_left
        intro e he
        by_cases h : e.1 = (bucketKeyRef st agg p.tsRef).2 <;> simp [h]
      rw [hmapfst]
      have hkmem : bucketKey agg (readDate st₀ p.tsRef) ∈ m.map Prod.fst := by
        rw [← hread, ← hkey]
        exact (any_key_iff m _).1 hany
      rw [foStep, if_pos hkmem]
    · have hstep : stepRef agg (st, m) p
          = ((bucketKeyRef st agg p.tsRef).1
                ++ [readDate (bucketKeyRef st agg p.tsRef).1 p.tsRef],
             m ++ [((bucketKeyRef st agg p.tsRef).2,
               { sum := p.value, count := 1,
                 tsRef := (bucketKeyRef st agg p.tsRef).1.length })]) := by
        unfold stepRef allocDate
        rw [if_neg hany]
      rw [hstep]
      have hm' : ∀ e ∈ m ++ [((bucketKeyRef st agg p.tsRef).2,
          ({ sum := p.value, count := 1,
             tsRef := (bucketKeyRef st agg p.tsRef).1.length } : RefGroup))],
          st₀.length ≤ e.2.tsRef := by
        intro e he
        rcases List.mem_append.1 he with he' | he'
        · exact hm e he'
        · rcases List.mem_singleton.1 he' with rfl
          exact le_trans hext.1 hext1.1
      obtain ⟨hA, hB, hC⟩ := ih st₀
        ((bucketKeyRef st agg p.tsRef).1
          ++ [readDate (bucketKeyRef st agg p.tsRef).1 p.tsRef]) _
        (storeExt_trans hext (storeExt_trans hext1 (storeExt_append _ _)))
        (fun q hq => hrefs q (List.mem_cons_of_mem _ hq)) hm'
      refine ⟨storeExt_trans (storeExt_trans hext1 (storeExt_append _ _)) hA, ?_, hC⟩
      rw [hB, List.map_append]
      have hknot : bucketKey agg (readDate st₀ p.tsRef) ∉ m.map Prod.fst := by
        rw [← hread, ← hkey]
        exact fun h => hany ((any_key_iff m _).2 h)
      rw [foStep, if_neg hknot, hkey, hread]
      rfl

/-- C9: `aggregateTimeSeriesData` never writes a pre-existing `Date`
object: the heap prefix present before the call is unchanged, every
input observation's timestamp dereferences to the same value after the
call, the outputs are newly constructed (their timestamps reference
only freshly allocated objects), and the output length is at most the
number of distinct bucket keys. -/
theorem aggregate_frame (st : DateStore) (data : List RefPoint) (agg : Aggregation)
    (hrefs : ∀ p ∈ data, p.tsRef < st.length) :
    ((aggregateTimeSeriesDataRef st data agg).1).take st.length = st ∧
    (∀ p ∈ data, readDate (aggregateTimeSeriesDataRef st data agg).1 p.tsRef
        = readDate st p.tsRef) ∧
    (∀ o ∈ (aggregateTimeSeriesDataRef st data agg).2, st.length ≤ o.tsRef) ∧
    ((aggregateTimeSeriesDataRef st data agg).2).length
      ≤ ((data.map (fun p => bucketKey agg (readDate st p.tsRef))).dedup).length := by
  obtain ⟨hA, hB, hC⟩ := foldl_stepRef_inv agg data st st []
    (storeExt_refl st) hrefs (by simp)
  refine ⟨hA.2, ?_, ?_, ?_⟩
  · intro p hp
    exact readDate_storeExt hA (hrefs p hp)
  · intro o ho
    unfold aggregateTimeSeriesDataRef at ho
    rcases List.mem_map.1 ho with ⟨e, he, rfl⟩
    exact hC e he
  · have hlen : ((aggregateTimeSeriesDataRef st data agg).2).length
        = ((data.foldl (stepRef agg) (st, [])).2.map Prod.fst).length := by
      unfold aggregateTimeSeriesDataRef
      simp
    rw [hlen, hB]
    have hfo : (data.map (fun p => bucketKey agg (readDate st p.tsRef))).foldl foStep
        (([] : List (String × RefGroup)).map Prod.fst)
        = firstOccurrences (data.map (fun p => bucketKey agg (readDate st p.tsRef))) := rfl
    rw [hfo, firstOccurrences_length_eq_dedup]

theorem aggregate_frame_witness :
    ((aggregateTimeSeriesDataRef exStore exRefData .monthly).1).take exStore.length
      = exStore ∧
    (∀ o ∈ (aggregateTimeSeriesDataRef exStore exRefData .monthly).2,
      exStore.length ≤ o.tsRef) :=
  have h := aggregate_frame exStore exRefData .monthly (by decide)
  ⟨h.1, h.2.2.1⟩
